import Mathlib

/-
Verification of the orchestrator component of counhopig/gittyai
(src/orchestrator/orchestrator.go, with the agent and task collaborator
types from the agent and task packages).

Effects are made explicit:
  * the agent-execution collaborator (agent.Execute, an LLM call) is an
    oracle of type Agent -> String -> Except OError String;
  * the manager LLM client (llm.LLM.Generate) is an oracle of type
    String -> Except OError String, and every orchestration function that
    may call it additionally returns the list of prompts actually sent
    (the manager call log), so that call counts are observable;
  * context cancellation (ctx.Done()) is an oracle Nat -> Bool giving the
    answer of the cancellation check performed before loop iteration i;
  * encoding/json Unmarshal for plan arrays is an oracle
    String -> Except String (List PlanStep);
  * the nondeterministic completion order of the parallel goroutines is an
    explicit parameter (a permutation of the launch indices), and the
    mutex-serialized writes are replayed as a fold over that order.
Go error values built with fmt.Errorf("...%w") / errors.Join are embedded
as the inductive OError, keeping the wrapping structure (failing indices,
joined error lists) observable.
-/

namespace GittyAI

/-- Mirrors agent.Agent (the fields the orchestrator reads). -/
structure Agent where
  name : String
  role : String
  goal : String
  backstory : String
deriving DecidableEq

/-- Mirrors task.Task. -/
structure Task where
  description : String
  expectedOutput : String
  agent : Option Agent
  context : List String
deriving DecidableEq

/-- Mirrors (*Task).WithAgent: copy the task and set its agent. -/
def Task.withAgent (t : Task) (a : Agent) : Task :=
  { t with agent := some a }

/-- Mirrors orchestrator.TaskResult. -/
structure TaskResult where
  task : Task
  result : String
  agentName : String
deriving DecidableEq

/-- Mirrors orchestrator.PlanStep. -/
structure PlanStep where
  taskDescription : String
  agentName : String
  expectedOutput : String
  useContext : Bool
deriving DecidableEq

/-- Embedding of the Go error values produced in orchestrator.go and its
collaborators: plain fmt.Errorf messages, wrapping with a message prefix,
the index-carrying wrappers, errors.Join, and ctx.Err(). -/
inductive OError where
  | msg (s : String)
  | wrap (s : String) (inner : OError)
  | taskFailed (idx : Nat) (inner : OError)
  | stepFailed (stepNum : Nat) (inner : OError)
  | managerSelectFailed (idx : Nat) (inner : OError)
  | planCreateFailed (inner : OError)
  | joined (errs : List OError)
  | ctxErr

/-- Boolean success test for Except values. -/
def isOkE {e a : Type} : Except e a → Bool
  | Except.ok _ => true
  | Except.error _ => false

/-- ASCII lowercasing of one character, as Go strings.ToLower acts on the
ASCII inputs used by the orchestrator. -/
def lowerChar (c : Char) : Char :=
  if 65 ≤ c.toNat && c.toNat ≤ 90 then Char.ofNat (c.toNat + 32) else c

/-- Model of strings.ToLower. -/
def strToLower (s : String) : String :=
  String.mk (s.data.map lowerChar)

/-- Whitespace test matching Go unicode.IsSpace on the ASCII range. -/
def isSpaceChar (c : Char) : Bool :=
  c = ' ' || c = '\t' || c = '\n' || c = '\r'

/-- Model of strings.TrimSpace: drop leading and trailing whitespace. -/
def strTrim (s : String) : String :=
  String.mk (((s.data.dropWhile isSpaceChar).reverse.dropWhile isSpaceChar).reverse)

/-- Decides whether the first list is a leading segment of the second. -/
def leadChars : List Char → List Char → Bool
  | [], _ => true
  | _ :: _, [] => false
  | a :: as, b :: bs => a = b && leadChars as bs

/-- Decides whether the needle occurs contiguously inside the haystack. -/
def charsContains (hay needle : List Char) : Bool :=
  leadChars needle hay ||
    (match hay with
     | [] => false
     | _ :: rest => charsContains rest needle)

/-- Model of strings.Contains. -/
def strContains (hay needle : String) : Bool :=
  charsContains hay.data needle.data

/-- Model of strings.EqualFold on the ASCII inputs the orchestrator uses. -/
def eqFold (a b : String) : Bool :=
  strToLower a = strToLower b

/-- Scan step of extractJSON: starting with the given bracket depth, walk
the characters, incrementing depth at each opening bracket and
decrementing it at each closing bracket, and return the consumed segment
up to and including the bracket that brings the depth to zero; Go's int
depth is embedded as Int. -/
def scanJSON : List Char → Int → Option (List Char)
  | [], _ => none
  | c :: rest, depth =>
    if c = '[' then (scanJSON rest (depth + 1)).map (fun l => c :: l)
    else if c = ']' then
      if depth - 1 = 0 then some [c]
      else (scanJSON rest (depth - 1)).map (fun l => c :: l)
    else (scanJSON rest depth).map (fun l => c :: l)

/-- Mirrors strings.Index(s, "[") followed by slicing: drop everything
before the first opening bracket, keeping the bracket itself; none when
the string has no opening bracket. -/
def dropUntilBracket : List Char → Option (List Char)
  | [] => none
  | c :: rest => if c = '[' then some (c :: rest) else dropUntilBracket rest

/-- Mirrors orchestrator.extractJSON: locate the first opening bracket and
scan forward tracking bracket nesting depth; return the matching segment,
or the empty string when there is no opening bracket or no match. -/
def extractJSON (s : String) : String :=
  match dropUntilBracket s.data with
  | none => ("")
  | some l =>
    match scanJSON l 0 with
    | none => ("")
    | some seg => String.mk seg

/-- Mirrors (*Task).Execute from the task package: fail when no agent is
assigned; otherwise build the prompt from the description and the optional
expected-output hint, call the agent collaborator, and wrap a failure. -/
def Task.executeGo (agentExec : Agent → String → Except OError String) (t : Task) :
    Except OError String :=
  match t.agent with
  | none => Except.error (OError.msg (("task has no agent assigned: ") ++ t.description))
  | some a =>
    let prompt :=
      if 0 < t.expectedOutput.length then
        t.description ++ ("\n\nExpected output: ") ++ t.expectedOutput
      else t.description
    match agentExec a prompt with
    | Except.error e => Except.error (OError.wrap ("task execution failed") e)
    | Except.ok r => Except.ok r

/-- Mirrors (*Orchestrator).executeTask: run the task and package the
TaskResult with the task value and the executing agent name. -/
def executeTask (agentExec : Agent → String → Except OError String) (t : Task) :
    Except OError TaskResult :=
  match t.executeGo agentExec with
  | Except.error e => Except.error e
  | Except.ok r =>
    Except.ok { task := t, result := r, agentName := (t.agent.map Agent.name).getD ("") }

/-- Mirrors (*Orchestrator).executeSequential, generalized over the running
loop index: check cancellation before each task, stop at the first failure
wrapping it with the 0-based failing index, otherwise append the result. -/
def executeSequentialGo (agentExec : Agent → String → Except OError String)
    (cancel : Nat → Bool) : Nat → List Task → List TaskResult × Option OError
  | _, [] => ([], none)
  | i, t :: ts =>
    if cancel i then ([], some OError.ctxErr)
    else
      match executeTask agentExec t with
      | Except.error e => ([], some (OError.taskFailed i e))
      | Except.ok r =>
        let rest := executeSequentialGo agentExec cancel (i + 1) ts
        (r :: rest.1, rest.2)

/-- One completion event of a parallel worker goroutine: under the mutex,
a failed task appends its index-wrapped error to the error list and a
successful task writes its result into its own launch-time slot. -/
def parallelStep (agentExec : Agent → String → Except OError String) (ts : List Task)
    (st : List (Option TaskResult) × List OError) (idx : Nat) :
    List (Option TaskResult) × List OError :=
  match ts[idx]? with
  | none => st
  | some t =>
    match executeTask agentExec t with
    | Except.error e => (st.1, st.2 ++ [OError.taskFailed idx e])
    | Except.ok r => (st.1.set idx (some r), st.2)

/-- Mirrors (*Orchestrator).executeParallel. The slice of result pointers
starts as all-nil (replicate none). When no cancellation fires, the worker
for every index completes exactly once in the nondeterministic completion
order given by the order parameter, and the final state is the fold of the
serialized slot/error writes; a nonempty error list becomes errors.Join.
When the launch loop observes cancellation before launching index c, only
the workers below c were launched, those of them that finished before the
return (the done oracle) have written their slots, and the first c slots
are returned with ctx.Err(). -/
def executeParallelGo (agentExec : Agent → String → Except OError String)
    (ts : List Task) (cancel : Nat → Bool) (order : List Nat) (done : Nat → Bool) :
    List (Option TaskResult) × Option OError :=
  match (List.range ts.length).find? cancel with
  | some c =>
    let st := ((order.filter (fun j => j < c && done j)).foldl
      (parallelStep agentExec ts) (List.replicate ts.length none, []))
    (st.1.take c, some OError.ctxErr)
  | none =>
    let st := order.foldl (parallelStep agentExec ts) (List.replicate ts.length none, [])
    (st.1, if st.2.isEmpty then none else some (OError.joined st.2))

/-- Inner loop of (*Orchestrator).buildAgentDescriptions, carrying the
1-based numbering. -/
def agentDescLoop : Nat → List Agent → String
  | _, [] => ("")
  | i, a :: rest =>
    toString (i + 1) ++ (". Name: ") ++ a.name ++ ("\n") ++
    ("   Role: ") ++ a.role ++ ("\n") ++
    ("   Goal: ") ++ a.goal ++ ("\n") ++
    (if a.backstory ≠ ("") then ("   Backstory: ") ++ a.backstory ++ ("\n") else ("")) ++
    ("\n") ++ agentDescLoop (i + 1) rest

/-- Mirrors (*Orchestrator).buildAgentDescriptions. -/
def buildAgentDescriptions (agents : List Agent) : String :=
  ("Available Agents:\n") ++ agentDescLoop 0 agents

/-- The agent-selection prompt of (*Orchestrator).selectAgentForTask. -/
def selectPrompt (agentDescriptions : String) (t : Task) : String :=
  ("You are a manager responsible for assigning tasks to the best-suited agent.\n\n") ++
  agentDescriptions ++
  ("\nTask to assign:\nDescription: ") ++ t.description ++
  ("\nExpected Output: ") ++ t.expectedOutput ++
  ("\n\nBased on the agents\x27 roles and goals, which agent is best suited for this task?\nRespond with ONLY the agent\x27s name, nothing else.")

/-- Mirrors (*Orchestrator).selectAgentForTask: send the selection prompt
to the manager LLM; on success, trim the reply and return the first agent,
in configured order, whose name matches the trimmed reply case-insensitively
or whose lowercased name occurs inside the lowercased raw reply; with no
match, fall back to the first configured agent (Go indexes agents[0]; the
empty-agent case is unreachable behind executeHierarchical's guard and is
given a dummy default here). Also returns the manager call log. -/
def selectAgentForTask (agents : List Agent)
    (gen : String → Except OError String) (t : Task) (agentDescriptions : String) :
    Except OError Agent × List String :=
  let prompt := selectPrompt agentDescriptions t
  match gen prompt with
  | Except.error e => (Except.error e, [prompt])
  | Except.ok response =>
    let agentName := strTrim response
    match agents.find?
        (fun a => eqFold a.name agentName ||
          strContains (strToLower response) (strToLower a.name)) with
    | some a => (Except.ok a, [prompt])
    | none => (Except.ok (agents.headD { name := (""), role := (""), goal := (""), backstory := ("") }), [prompt])

/-- Mirrors (*Orchestrator).findAgentByName: first agent whose name matches
case-insensitively. -/
def findAgentByName (agents : List Agent) (name : String) : Option Agent :=
  agents.find? (fun a => eqFold a.name name)

/-- The plan-creation prompt of (*Orchestrator).createExecutionPlan. -/
def planPrompt (agentDescriptions : String) (goal : String) : String :=
  ("You are a manager responsible for breaking down goals into tasks and assigning them to agents.\n\n") ++
  agentDescriptions ++
  ("\nGoal to achieve: ") ++ goal ++
  ("\n\nCreate an execution plan to achieve this goal. For each step, specify:\n1. The task description\n2. Which agent should handle it (use exact agent name)\n3. Expected output\n4. Whether it needs context from previous tasks (true/false)\n\nRespond in JSON format as an array of steps:\n[\n  \x7b\n    \"task_description\": \"...\",\n    \"agent_name\": \"...\",\n    \"expected_output\": \"...\",\n    \"use_context\": false\n  \x7d\n]\n\nKeep the plan focused and efficient. Only include necessary steps.")

/-- Mirrors (*Orchestrator).createExecutionPlan: one manager call; extract
the JSON array from the reply (empty extraction is the no-valid-plan
error); unmarshal it through the encoding/json oracle; reject a parse
failure and an empty plan. Returns the manager call log alongside. -/
def createExecutionPlan (agents : List Agent) (goal : String)
    (gen : String → Except OError String)
    (unmarshal : String → Except String (List PlanStep)) :
    Except OError (List PlanStep) × List String :=
  let prompt := planPrompt (buildAgentDescriptions agents) goal
  match gen prompt with
  | Except.error e => (Except.error e, [prompt])
  | Except.ok response =>
    let jsonStr := extractJSON response
    if jsonStr = ("") then
      (Except.error (OError.msg ("manager did not return valid JSON plan")), [prompt])
    else
      match unmarshal jsonStr with
      | Except.error e =>
        (Except.error (OError.wrap ("failed to parse execution plan") (OError.msg e)), [prompt])
      | Except.ok plan =>
        if plan.isEmpty then
          (Except.error (OError.msg ("manager returned empty plan")), [prompt])
        else (Except.ok plan, [prompt])

/-- The step-execution loop of (*Orchestrator).orchestrateFromGoal,
carrying the 0-based step index and the running previous-results
accumulator; a step failure is wrapped with the 1-based step number. -/
def goalLoop (agents : List Agent) (agentExec : Agent → String → Except OError String)
    (cancel : Nat → Bool) : Nat → String → List PlanStep → List TaskResult × Option OError
  | _, _, [] => ([], none)
  | i, prev, step :: rest =>
    if cancel i then ([], some OError.ctxErr)
    else
      let selected :=
        match findAgentByName agents step.agentName with
        | some a => a
        | none => agents.headD { name := (""), role := (""), goal := (""), backstory := ("") }
      let taskDesc :=
        if prev ≠ ("") && step.useContext then
          step.taskDescription ++ ("\n\nContext from previous tasks:\n") ++ prev
        else step.taskDescription
      let newTask : Task :=
        { description := taskDesc, expectedOutput := step.expectedOutput,
          agent := some selected, context := [] }
      match executeTask agentExec newTask with
      | Except.error e => ([], some (OError.stepFailed (i + 1) e))
      | Except.ok r =>
        let prev' := prev ++ ("\n--- ") ++ step.taskDescription ++ (" (by ") ++
          step.agentName ++ (") ---\n") ++ r.result ++ ("\n")
        let out := goalLoop agents agentExec cancel (i + 1) prev' rest
        (r :: out.1, out.2)

/-- Mirrors (*Orchestrator).orchestrateFromGoal: create the plan (one
manager call), fail wrapping the planning error when it fails, otherwise
run the plan steps. Returns the manager call log alongside. -/
def orchestrateFromGoal (agents : List Agent) (goal : String)
    (agentExec : Agent → String → Except OError String)
    (gen : String → Except OError String)
    (unmarshal : String → Except String (List PlanStep))
    (cancel : Nat → Bool) : List TaskResult × Option OError × List String :=
  let planOut := createExecutionPlan agents goal gen unmarshal
  match planOut.1 with
  | Except.error e => ([], some (OError.planCreateFailed e), planOut.2)
  | Except.ok plan =>
    let out := goalLoop agents agentExec cancel 0 ("") plan
    (out.1, out.2, planOut.2)

/-- The task loop of (*Orchestrator).orchestratePredefinedTasks, carrying
the 0-based task index: a task with a bound agent is executed directly;
an unbound task goes through manager agent selection first. Returns the
manager call log alongside. -/
def predefinedLoop (agents : List Agent)
    (agentExec : Agent → String → Except OError String)
    (gen : String → Except OError String) (cancel : Nat → Bool)
    (agentDescriptions : String) :
    Nat → List Task → List TaskResult × Option OError × List String
  | _, [] => ([], none, [])
  | i, t :: ts =>
    if cancel i then ([], some OError.ctxErr, [])
    else
      match t.agent with
      | some _ =>
        match executeTask agentExec t with
        | Except.error e => ([], some (OError.taskFailed i e), [])
        | Except.ok r =>
          let out := predefinedLoop agents agentExec gen cancel agentDescriptions (i + 1) ts
          (r :: out.1, out.2.1, out.2.2)
      | none =>
        let sel := selectAgentForTask agents gen t agentDescriptions
        match sel.1 with
        | Except.error e => ([], some (OError.managerSelectFailed i e), sel.2)
        | Except.ok a =>
          match executeTask agentExec (t.withAgent a) with
          | Except.error e => ([], some (OError.taskFailed i e), sel.2)
          | Except.ok r =>
            let out := predefinedLoop agents agentExec gen cancel agentDescriptions (i + 1) ts
            (r :: out.1, out.2.1, sel.2 ++ out.2.2)

/-- Mirrors (*Orchestrator).orchestratePredefinedTasks: build the agent
descriptions once and run the task loop from index 0. -/
def orchestratePredefinedTasks (agents : List Agent) (tasks : List Task)
    (agentExec : Agent → String → Except OError String)
    (gen : String → Except OError String) (cancel : Nat → Bool) :
    List TaskResult × Option OError × List String :=
  predefinedLoop agents agentExec gen cancel (buildAgentDescriptions agents) 0 tasks

/-- The orchestrator state relevant to hierarchical mode: mirrors the
agents, tasks, managerLLM and goal fields of orchestrator.Orchestrator,
with the manager LLM client embedded as an optional Generate oracle. -/
structure Orchestrator where
  agents : List Agent
  tasks : List Task
  managerLLM : Option (String → Except OError String)
  goal : String

/-- Mirrors (*Orchestrator).executeHierarchical: require a manager LLM and
a nonempty agent list; with predefined tasks run predefined-task
assignment, otherwise with a nonempty goal run goal decomposition,
otherwise fail. Returns the manager call log alongside. -/
def executeHierarchical (o : Orchestrator)
    (agentExec : Agent → String → Except OError String)
    (unmarshal : String → Except String (List PlanStep))
    (cancel : Nat → Bool) : List TaskResult × Option OError × List String :=
  match o.managerLLM with
  | none => ([], some (OError.msg ("hierarchical mode requires a manager LLM")), [])
  | some gen =>
    if o.agents.length = 0 then
      ([], some (OError.msg ("no agents available for orchestration")), [])
    else if 0 < o.tasks.length then
      orchestratePredefinedTasks o.agents o.tasks agentExec gen cancel
    else if o.goal ≠ ("") then
      orchestrateFromGoal o.agents o.goal agentExec gen unmarshal cancel
    else ([], some (OError.msg ("hierarchical mode requires either tasks or a goal")), [])

/-- Inner loop of FormatResults, carrying the 0-based index rendered
1-based. -/
def formatResultsFrom : Nat → List TaskResult → String
  | _, [] => ("")
  | i, r :: rs =>
    ("Task ") ++ toString (i + 1) ++ (": ") ++ r.task.description ++ ("\n") ++
    ("Agent: ") ++ r.agentName ++ ("\n") ++
    ("Result:\n") ++ r.result ++ ("\n") ++
    ("------------------------\n\n") ++ formatResultsFrom (i + 1) rs

/-- Mirrors orchestrator.FormatResults. -/
def FormatResults (results : List TaskResult) : String :=
  ("\n=== EXECUTION RESULTS ===\n\n") ++ formatResultsFrom 0 results

/-- Net bracket-nesting contribution of one character: plus one for an
opening bracket, minus one for a closing bracket. -/
def charBal (c : Char) : Int :=
  if c = '[' then 1 else if c = ']' then -1 else 0

/-- Bracket-nesting balance of a character list. -/
def bal : List Char → Int
  | [] => 0
  | c :: rest => charBal c + bal rest

/-- The depth-tracking scan returns precisely the shortest nonempty leading
segment whose bracket balance is the negation of the starting depth. -/
theorem scanJSON_of_minimal (p : List Char) : ∀ (t : List Char) (d : Int), 1 ≤ d → p ≠ [] →
    bal p = -d → (∀ q r, q ++ r = p → q ≠ [] → q ≠ p → bal q ≠ -d) →
    scanJSON (p ++ t) d = some p := by
  induction p with
  | nil => intro t d _ hne _ _; exact absurd rfl hne
  | cons c p' ih =>
    intro t d hd _ hbal hmin
    by_cases hc1 : c = '['
    · subst hc1
      have hco : charBal '[' = 1 := by decide
      have hbal' : bal p' = -(d + 1) := by rw [bal, hco] at hbal; omega
      have hne' : p' ≠ [] := by
        intro h; subst h
        rw [bal, hco] at hbal
        simp only [bal] at hbal
        omega
      have hmin' : ∀ q r, q ++ r = p' → q ≠ [] → q ≠ p' → bal q ≠ -(d + 1) := by
        intro q r hqr hq hqp hbq
        apply hmin ('[' :: q) r (by rw [List.cons_append, hqr]) (by simp) (by simp [hqp])
        rw [bal, hco]
        omega
      have hrec := ih t (d + 1) (by omega) hne' hbal' hmin'
      simp only [List.cons_append, scanJSON, List.append_eq, if_true, if_pos rfl, hrec,
        Option.map_some']
    · by_cases hc2 : c = ']'
      · subst hc2
        have hcc : charBal ']' = -1 := by decide
        by_cases hd1 : d = 1
        · subst hd1
          have hp' : p' = [] := by
            by_contra hne'
            apply hmin [']'] p' rfl (by simp) ?_ (by decide)
            intro hq
            injection hq with _ h2
            exact hne' h2.symm
          subst hp'
          rfl
        · have hne' : p' ≠ [] := by
            intro h; subst h
            rw [bal, hcc] at hbal
            simp only [bal] at hbal
            omega
          have hbal' : bal p' = -(d - 1) := by rw [bal, hcc] at hbal; omega
          have hmin' : ∀ q r, q ++ r = p' → q ≠ [] → q ≠ p' → bal q ≠ -(d - 1) := by
            intro q r hqr hq hqp hbq
            apply hmin (']' :: q) r (by rw [List.cons_append, hqr]) (by simp) (by simp [hqp])
            rw [bal, hcc]
            omega
          have hrec := ih t (d - 1) (by omega) hne' hbal' hmin'
          have hd0 : ¬(d - 1 = 0) := by omega
          simp only [List.cons_append, scanJSON, List.append_eq, if_true, if_false,
            if_neg (by decide : ¬(']' = '[')), if_pos rfl, if_neg hd0, hrec, Option.map_some']
      · have hc0 : charBal c = 0 := by simp [charBal, hc1, hc2]
        have hne' : p' ≠ [] := by
          intro h; subst h
          rw [bal, hc0] at hbal
          simp only [bal] at hbal
          omega
        have hbal' : bal p' = -d := by rw [bal, hc0] at hbal; omega
        have hmin' : ∀ q r, q ++ r = p' → q ≠ [] → q ≠ p' → bal q ≠ -d := by
          intro q r hqr hq hqp hbq
          apply hmin (c :: q) r (by rw [List.cons_append, hqr]) (by simp) (by simp [hqp])
          rw [bal, hc0]
          omega
        have hrec := ih t d hd hne' hbal' hmin'
        simp only [List.cons_append, scanJSON, List.append_eq, if_neg hc1, if_neg hc2, hrec,
          Option.map_some']

/-- Dropping up to the first opening bracket skips any bracket-free part. -/
theorem dropUntilBracket_append (pre l : List Char) (h : ('[') ∉ pre) :
    dropUntilBracket (pre ++ l) = dropUntilBracket l := by
  induction pre with
  | nil => rfl
  | cons c cs ih =>
    have hc : ¬(c = '[') := by intro hx; subst hx; exact h (List.mem_cons_self _ _)
    simp only [List.cons_append, dropUntilBracket, if_neg hc]
    exact ih (fun hm => h (List.mem_cons_of_mem c hm))

/-- Without an opening bracket the scan start is not found. -/
theorem dropUntilBracket_none (l : List Char) (h : ('[') ∉ l) : dropUntilBracket l = none := by
  induction l with
  | nil => rfl
  | cons c cs ih =>
    have hc : ¬(c = '[') := by intro hx; subst hx; exact h (List.mem_cons_self _ _)
    simp only [dropUntilBracket, if_neg hc]
    exact ih (fun hm => h (List.mem_cons_of_mem c hm))

/-- C1: for every input string, extractJSON returns exactly the substring
starting at the first opening bracket and ending at the closing bracket
that closes it under bracket-nesting-depth counting (the shortest leading
segment from the first opening bracket with balance zero); when the string
has no opening bracket it returns the empty string, and a hierarchical
goal run whose manager reply has no opening bracket fails with the
no-valid-plan planning error, zero results, and one manager call. -/
theorem extractJSON_first_balanced :
    (∀ s : String, ('[') ∉ s.data → extractJSON s = ("")) ∧
    (∀ (s : String) (pre p t : List Char),
      s.data = pre ++ ('[') :: (p ++ t) → ('[') ∉ pre →
      bal (('[') :: p) = 0 →
      (∀ k, k < p.length → bal (('[') :: p.take k) ≠ 0) →
      extractJSON s = String.mk (('[') :: p)) ∧
    (∀ (agents : List Agent) (goal : String)
       (agentExec : Agent → String → Except OError String)
       (gen : String → Except OError String)
       (unmarshal : String → Except String (List PlanStep))
       (cancel : Nat → Bool) (reply : String),
      gen (planPrompt (buildAgentDescriptions agents) goal) = Except.ok reply →
      ('[') ∉ reply.data →
      orchestrateFromGoal agents goal agentExec gen unmarshal cancel =
        ([], some (OError.planCreateFailed (OError.msg ("manager did not return valid JSON plan"))),
         [planPrompt (buildAgentDescriptions agents) goal])) := by
  refine ⟨?_, ?_, ?_⟩
  · intro s hnob
    unfold extractJSON
    rw [dropUntilBracket_none s.data hnob]
  · intro s pre p t hs hpre hbal hmin
    have hob : charBal '[' = 1 := by decide
    have hbp : bal p = -1 := by rw [bal, hob] at hbal; omega
    have hne : p ≠ [] := by
      intro h; subst h
      simp only [bal] at hbp
      omega
    have hminq : ∀ q r, q ++ r = p → q ≠ [] → q ≠ p → bal q ≠ -1 := by
      intro q r hqr hq hqp hbq
      have hr : r ≠ [] := by
        intro hr0; subst hr0
        rw [List.append_nil] at hqr
        exact hqp hqr
      have hlen : q.length < p.length := by
        have h1 : q.length + r.length = p.length := by rw [← hqr, List.length_append]
        have h2 : 0 < r.length := List.length_pos.mpr hr
        omega
      have hq' : p.take q.length = q := by rw [← hqr]; exact List.take_left q r
      have h3 := hmin q.length hlen
      rw [hq'] at h3
      apply h3
      rw [bal, hob]
      omega
    have hd : dropUntilBracket s.data = some (('[') :: (p ++ t)) := by
      rw [hs, dropUntilBracket_append pre _ hpre]
      simp [dropUntilBracket]
    have hrec := scanJSON_of_minimal p t 1 (le_refl 1) hne hbp hminq
    have hsc : scanJSON (('[') :: (p ++ t)) 0 = some (('[') :: p) := by
      simp only [scanJSON, List.append_eq, if_true, zero_add, hrec, Option.map_some']
    simp only [extractJSON, hd, hsc]
  · intro agents goal A gen unm cancel reply hgen hnob
    have hx : extractJSON reply = ("") := by
      unfold extractJSON
      rw [dropUntilBracket_none reply.data hnob]
    simp [orchestrateFromGoal, createExecutionPlan, hgen, hx]

/-- Witness for extractJSON_first_balanced, instantiating all three parts
at concrete strings. -/
theorem extractJSON_first_balanced_witness :
    (('[') ∉ ("no brackets").data) ∧ extractJSON ("no brackets") = ("") ∧
    (("x[[a]]y").data = ('x' :: []) ++ ('[') :: ((("[a]]").data) ++ (("y").data))) ∧
    bal (('[') :: ("[a]]").data) = 0 ∧
    (∀ k, k < (("[a]]").data).length → bal (('[') :: (("[a]]").data).take k) ≠ 0) ∧
    extractJSON ("x[[a]]y") = String.mk (('[') :: ("[a]]").data) ∧
    ((fun _ : String => (Except.ok ("nope") : Except OError String))
        (planPrompt (buildAgentDescriptions []) ("g")) = Except.ok ("nope")) ∧
    (('[') ∉ ("nope").data) ∧
    orchestrateFromGoal [] ("g") (fun _ _ => Except.ok (""))
        (fun _ => Except.ok ("nope")) (fun _ => Except.error ("no")) (fun _ => false) =
      ([], some (OError.planCreateFailed (OError.msg ("manager did not return valid JSON plan"))),
       [planPrompt (buildAgentDescriptions []) ("g")]) :=
  ⟨by decide,
   extractJSON_first_balanced.1 ("no brackets") (by decide),
   by decide,
   by decide,
   by decide,
   extractJSON_first_balanced.2.1 ("x[[a]]y") ('x' :: []) (("[a]]").data) (("y").data)
     (by decide) (by decide) (by decide) (by decide),
   rfl,
   by decide,
   extractJSON_first_balanced.2.2 [] ("g") (fun _ _ => Except.ok (""))
     (fun _ => Except.ok ("nope")) (fun _ => Except.error ("no")) (fun _ => false)
     ("nope") rfl (by decide)⟩

/-- The match test selectAgentForTask applies to each agent in its single
pass: case-insensitive equality with the trimmed reply, or containment of
the lowercased agent name in the lowercased raw reply. -/
def selMatches (response : String) (a : Agent) : Bool :=
  eqFold a.name (strTrim response) ||
    strContains (strToLower response) (strToLower a.name)

/-- Modelled from the spec sentence behind claim C2 (the refinement
target): interpret the reply using case-insensitive exact name match over
all agents first, then case-insensitive substring containment over all
agents as a fallback, then the first configured agent. -/
def selectAgentForTaskSpec (agents : List Agent) (response : String) : Option Agent :=
  match agents.find? (fun a => eqFold a.name (strTrim response)) with
  | some a => some a
  | none =>
    match agents.find?
        (fun a => strContains (strToLower response) (strToLower a.name)) with
    | some a => some a
    | none => agents.head?

/-- An agent whose name is a substring of another agent's name. -/
def botAgent : Agent :=
  { name := ("Bot"), role := ("r"), goal := ("g"), backstory := ("") }

/-- An agent whose name contains the other agent's name. -/
def robotAgent : Agent :=
  { name := ("Robot"), role := ("r"), goal := ("g"), backstory := ("") }

/-- An unbound task used to drive agent selection. -/
def taskC2 : Task :=
  { description := ("d"), expectedOutput := ("e"), agent := none, context := [] }

/-- A successful find? returns an element satisfying the predicate that is
preceded only by elements falsifying it. -/
theorem find?_first_decomp {α : Type} (p : α → Bool) :
    ∀ (l : List α) (a : α), l.find? p = some a →
      p a = true ∧ ∃ pre suf, l = pre ++ a :: suf ∧ ∀ b ∈ pre, p b = false := by
  intro l
  induction l with
  | nil => intro a h; cases h
  | cons x xs ih =>
    intro a h
    by_cases hx : p x = true
    · rw [List.find?_cons_of_pos _ hx] at h
      injection h with h1
      subst h1
      exact ⟨hx, [], xs, rfl, by intro b hb; cases hb⟩
    · have hx' : p x = false := by revert hx; cases p x <;> simp
      rw [List.find?_cons_of_neg _ (by simp [hx'])] at h
      obtain ⟨hpa, pre, suf, heq, hpre⟩ := ih a h
      refine ⟨hpa, x :: pre, suf, by rw [heq]; rfl, ?_⟩
      intro b hb
      cases hb with
      | head => exact hx'
      | tail _ hb' => exact hpre b hb'

/-- C2 counterexample: with agents [Bot, Robot] and manager reply Robot,
the code returns Bot, the earlier agent, accepted by substring containment
during its single pass, while the claimed exact-match-first-over-all-agents
interpretation returns Robot. -/
theorem selectAgent_counterexample :
    (selectAgentForTask [botAgent, robotAgent] (fun _ => Except.ok ("Robot")) taskC2
        ("descs")).1 = Except.ok botAgent ∧
    selectAgentForTaskSpec [botAgent, robotAgent] ("Robot") = some robotAgent ∧
    botAgent ≠ robotAgent :=
  ⟨rfl, rfl, by decide⟩

/-- Conclusion of the amended C2: after a successful manager call the
selection logs exactly one manager prompt and returns, without failing,
the first agent in configured order passing the one-pass match test
(case-insensitive exact match OR substring containment, checked together
per agent), falling back to the first configured agent when no agent
passes. -/
def OnePassSelected (agents : List Agent) (gen : String → Except OError String)
    (t : Task) (d response : String) : Prop :=
  (selectAgentForTask agents gen t d).2 = [selectPrompt d t] ∧
  ∃ a, (selectAgentForTask agents gen t d).1 = Except.ok a ∧
    ((∃ pre suf, agents = pre ++ a :: suf ∧ selMatches response a = true ∧
       ∀ b ∈ pre, selMatches response b = false) ∨
     ((∀ b ∈ agents, selMatches response b = false) ∧ agents.head? = some a))

/-- C2 amended: for every nonempty agent list and successful manager reply,
agent selection returns the first agent whose name matches the trimmed
reply case-insensitively or whose lowercased name is contained in the
lowercased reply, both conditions being tested together agent by agent in
configured order; with no match it deterministically returns the first
configured agent, and selection itself never fails. -/
theorem selectAgent_onepass (agents : List Agent) (gen : String → Except OError String)
    (t : Task) (d response : String) (hne : agents ≠ [])
    (hgen : gen (selectPrompt d t) = Except.ok response) :
    OnePassSelected agents gen t d response := by
  cases agents with
  | nil => exact absurd rfl hne
  | cons a0 rest =>
    cases hf : (a0 :: rest).find?
        (fun a => eqFold a.name (strTrim response) ||
          strContains (strToLower response) (strToLower a.name)) with
    | some a =>
      have hsel : selectAgentForTask (a0 :: rest) gen t d = (Except.ok a, [selectPrompt d t]) := by
        simp only [selectAgentForTask, hgen, hf]
      obtain ⟨hpa, pre, suf, heq, hpre⟩ := find?_first_decomp _ (a0 :: rest) a hf
      refine ⟨by rw [hsel], a, by rw [hsel], Or.inl ⟨pre, suf, heq, hpa, ?_⟩⟩
      intro b hb
      exact hpre b hb
    | none =>
      have hsel : selectAgentForTask (a0 :: rest) gen t d =
          (Except.ok ((a0 :: rest).headD
            { name := (""), role := (""), goal := (""), backstory := ("") }),
           [selectPrompt d t]) := by
        simp only [selectAgentForTask, hgen, hf]
      refine ⟨by rw [hsel], a0, by rw [hsel]; rfl, Or.inr ⟨?_, rfl⟩⟩
      intro b hb
      have hb' := List.find?_eq_none.mp hf b hb
      unfold selMatches
      simpa using hb'

/-- Witness for selectAgent_onepass at the Bot/Robot instance. -/
theorem selectAgent_onepass_witness :
    ([botAgent, robotAgent] ≠ ([] : List Agent)) ∧
    ((fun _ : String => (Except.ok ("Robot") : Except OError String))
        (selectPrompt ("descs") taskC2) = Except.ok ("Robot")) ∧
    OnePassSelected [botAgent, robotAgent] (fun _ => Except.ok ("Robot")) taskC2
      ("descs") ("Robot") :=
  ⟨by decide, rfl,
   selectAgent_onepass [botAgent, robotAgent] (fun _ => Except.ok ("Robot")) taskC2
     ("descs") ("Robot") (by decide) rfl⟩

/-- The error that completion of worker j contributes, if any. -/
def parErrOf (agentExec : Agent → String → Except OError String) (ts : List Task)
    (j : Nat) : Option OError :=
  match ts[j]? with
  | none => none
  | some t =>
    match executeTask agentExec t with
    | Except.error e => some (OError.taskFailed j e)
    | Except.ok _ => none

/-- Every completion event preserves the length of the slot array. -/
theorem parallelFold_length (agentExec : Agent → String → Except OError String)
    (ts : List Task) : ∀ (order : List Nat) (st : List (Option TaskResult) × List OError),
    ((order.foldl (parallelStep agentExec ts) st).1).length = st.1.length := by
  intro order
  induction order with
  | nil => intro st; rfl
  | cons j rest ih =>
    intro st
    rw [List.foldl_cons, ih]
    unfold parallelStep
    cases hjt : ts[j]? with
    | none => rfl
    | some t =>
      cases hxt : executeTask agentExec t with
      | error e => simp [hxt]
      | ok r => simp [hxt, List.length_set]

/-- A successfully completing worker's slot holds its result exactly when
its completion is in the replayed order; no other completion touches it. -/
theorem parallelFold_slot_ok (agentExec : Agent → String → Except OError String)
    (ts : List Task) (i : Nat) (ti : Task) (r : TaskResult)
    (hti : ts[i]? = some ti) (hok : executeTask agentExec ti = Except.ok r) :
    ∀ (order : List Nat) (st : List (Option TaskResult) × List OError),
    st.1.length = ts.length →
    ((order.foldl (parallelStep agentExec ts) st).1)[i]? =
      if i ∈ order then some (some r) else st.1[i]? := by
  intro order
  induction order with
  | nil => intro st _; simp
  | cons j rest ih =>
    intro st hst
    rw [List.foldl_cons]
    have hstep : (parallelStep agentExec ts st j).1.length = ts.length := by
      unfold parallelStep
      cases hjt : ts[j]? with
      | none => exact hst
      | some t =>
        cases hxt : executeTask agentExec t with
        | error e => simp [hxt, hst]
        | ok r' => simp [hxt, List.length_set, hst]
    rw [ih _ hstep]
    by_cases hj : j = i
    · subst hj
      have hlt : j < st.1.length := by
        rw [hst]
        by_contra hcon
        rw [List.getElem?_eq_none (Nat.le_of_not_lt hcon)] at hti
        cases hti
      have hslot : (parallelStep agentExec ts st j).1[j]? = some (some r) := by
        simp only [parallelStep, hti, hok]
        simp [List.getElem?_set_self hlt]
      by_cases hmem : j ∈ rest <;> simp [hmem, hslot]
    · have hslot : (parallelStep agentExec ts st j).1[i]? = st.1[i]? := by
        unfold parallelStep
        cases hjt : ts[j]? with
        | none => rfl
        | some t =>
          cases hxt : executeTask agentExec t with
          | error e => simp [hxt]
          | ok r' => simp [hxt, List.getElem?_set_ne hj]
      rw [hslot]
      by_cases hmem : i ∈ rest
      · simp [hmem, List.mem_cons]
      · have hij : ¬(i = j) := fun h => hj h.symm
        simp [hmem, List.mem_cons, hij]

/-- A failing worker's slot is never written. -/
theorem parallelFold_slot_err (agentExec : Agent → String → Except OError String)
    (ts : List Task) (i : Nat) (ti : Task) (e : OError)
    (hti : ts[i]? = some ti) (herr : executeTask agentExec ti = Except.error e) :
    ∀ (order : List Nat) (st : List (Option TaskResult) × List OError),
    ((order.foldl (parallelStep agentExec ts) st).1)[i]? = st.1[i]? := by
  intro order
  induction order with
  | nil => intro st; rfl
  | cons j rest ih =>
    intro st
    rw [List.foldl_cons, ih]
    by_cases hj : j = i
    · subst hj
      simp only [parallelStep, hti, herr]
    · unfold parallelStep
      cases hjt : ts[j]? with
      | none => rfl
      | some t =>
        cases hxt : executeTask agentExec t with
        | error e' => simp [hxt]
        | ok r' => simp [hxt, List.getElem?_set_ne hj]

/-- The joined error list after the replay is the concatenation, in
completion order, of the contributions of the failing workers. -/
theorem parallelFold_errs (agentExec : Agent → String → Except OError String)
    (ts : List Task) : ∀ (order : List Nat) (st : List (Option TaskResult) × List OError),
    (order.foldl (parallelStep agentExec ts) st).2 =
      st.2 ++ order.filterMap (parErrOf agentExec ts) := by
  intro order
  induction order with
  | nil => intro st; simp
  | cons j rest ih =>
    intro st
    rw [List.foldl_cons, ih, List.filterMap_cons]
    unfold parallelStep parErrOf
    cases hjt : ts[j]? with
    | none => simp
    | some t =>
      cases hxt : executeTask agentExec t with
      | error e => simp [hxt]
      | ok r => simp [hxt]

/-- A successful executeTask returns a result carrying the executed task
itself and the bound agent's name. -/
theorem executeTask_ok_fields (agentExec : Agent → String → Except OError String)
    (t : Task) (r : TaskResult) (h : executeTask agentExec t = Except.ok r) :
    r.task = t ∧ ∀ a, t.agent = some a → r.agentName = a.name := by
  unfold executeTask at h
  cases hg : t.executeGo agentExec with
  | error e => rw [hg] at h; cases h
  | ok v =>
    rw [hg] at h
    injection h with h1
    subst h1
    refine ⟨rfl, ?_⟩
    intro a ha
    simp [ha]

/-- Conclusion of C3: the parallel result collection has the input's
length, and the slot of every successfully executed index holds that very
task's result. -/
def ParallelSlots (agentExec : Agent → String → Except OError String)
    (ts : List Task) (out : List (Option TaskResult) × Option OError) : Prop :=
  out.1.length = ts.length ∧
  ∀ (i : Nat) (ti : Task) (r : TaskResult),
    ts[i]? = some ti → executeTask agentExec ti = Except.ok r →
    out.1[i]? = some (some r) ∧ r.task = ti

/-- C3: in Parallel mode without cancellation, whatever the completion
order of the concurrent workers, the result collection has the same length
as the task list and slot i of every successfully completed index i holds
the result of input task i, whose task field is input task i itself. -/
theorem parallel_slot_correct (agentExec : Agent → String → Except OError String)
    (ts : List Task) (order : List Nat) (done : Nat → Bool)
    (hperm : order.Perm (List.range ts.length)) :
    ParallelSlots agentExec ts
      (executeParallelGo agentExec ts (fun _ => false) order done) := by
  have hcansel : (List.range ts.length).find? (fun _ => false) = none := by
    simp
  unfold ParallelSlots
  simp only [executeParallelGo, hcansel]
  constructor
  · rw [parallelFold_length]
    simp
  · intro i ti r hti hok
    have hlen : i < ts.length := by
      by_contra hcon
      rw [List.getElem?_eq_none (Nat.le_of_not_lt hcon)] at hti
      cases hti
    have hmem : i ∈ order := hperm.mem_iff.mpr (List.mem_range.mpr hlen)
    have hslot := parallelFold_slot_ok agentExec ts i ti r hti hok order
      (List.replicate ts.length none, []) (by simp)
    rw [if_pos hmem] at hslot
    exact ⟨hslot, (executeTask_ok_fields agentExec ti r hok).1⟩

/-- Conclusion of C4: the parallel result collection keeps the input's
length, every failing index's slot remains unset, and the returned error
is the join of an error list containing the index-wrapped failure of every
failing index. -/
def ParallelFailures (agentExec : Agent → String → Except OError String)
    (ts : List Task) (out : List (Option TaskResult) × Option OError) : Prop :=
  out.1.length = ts.length ∧
  ∀ (i : Nat) (ti : Task) (e : OError),
    ts[i]? = some ti → executeTask agentExec ti = Except.error e →
    out.1[i]? = some none ∧
    ∃ errs, out.2 = some (OError.joined errs) ∧ OError.taskFailed i e ∈ errs

/-- C4: in Parallel mode without cancellation, whatever the completion
order, when tasks fail the strategy still returns a result collection of
the input's length with each failed index unset, together with a single
joined error containing every individual index-wrapped failure, not only
the first. -/
theorem parallel_error_aggregation (agentExec : Agent → String → Except OError String)
    (ts : List Task) (order : List Nat) (done : Nat → Bool)
    (hperm : order.Perm (List.range ts.length)) :
    ParallelFailures agentExec ts
      (executeParallelGo agentExec ts (fun _ => false) order done) := by
  have hcansel : (List.range ts.length).find? (fun _ => false) = none := by
    simp
  unfold ParallelFailures
  simp only [executeParallelGo, hcansel]
  constructor
  · rw [parallelFold_length]
    simp
  · intro i ti e hti herr
    have hlen : i < ts.length := by
      by_contra hcon
      rw [List.getElem?_eq_none (Nat.le_of_not_lt hcon)] at hti
      cases hti
    have hmem : i ∈ order := hperm.mem_iff.mpr (List.mem_range.mpr hlen)
    constructor
    · rw [parallelFold_slot_err agentExec ts i ti e hti herr order]
      simp [List.getElem?_replicate, hlen]
    · have herrs := parallelFold_errs agentExec ts order (List.replicate ts.length none, [])
      have hcontrib : parErrOf agentExec ts i = some (OError.taskFailed i e) := by
        simp only [parErrOf, hti, herr]
      have hmem2 : OError.taskFailed i e ∈ order.filterMap (parErrOf agentExec ts) :=
        List.mem_filterMap.mpr ⟨i, hmem, hcontrib⟩
      refine ⟨order.filterMap (parErrOf agentExec ts), ?_, hmem2⟩
      have hne : (order.filterMap (parErrOf agentExec ts)).isEmpty = false := by
        rw [List.isEmpty_eq_false]
        intro h0
        rw [h0] at hmem2
        cases hmem2
      rw [herrs]
      simp [hne]

/-- Agent whose executions succeed under execW. -/
def agentOkW : Agent := { name := ("X"), role := ("r"), goal := ("g"), backstory := ("") }

/-- Agent whose executions fail under execW. -/
def agentBadW : Agent := { name := ("F"), role := ("r"), goal := ("g"), backstory := ("") }

/-- Concrete agent-execution oracle: fails for the agent named F. -/
def execW : Agent → String → Except OError String :=
  fun a _ => if a.name = ("F") then Except.error (OError.msg ("boom")) else Except.ok ("fine")

/-- A task bound to the succeeding agent. -/
def taskokW : Task :=
  { description := ("t"), expectedOutput := (""), agent := some agentOkW, context := [] }

/-- A task bound to the failing agent. -/
def taskbadW : Task :=
  { description := ("t"), expectedOutput := (""), agent := some agentBadW, context := [] }

/-- Six tasks whose 0-based indices 2 and 5 fail under execW. -/
def tasks6W : List Task :=
  [taskokW, taskokW, taskbadW, taskokW, taskokW, taskbadW]

/-- Witness for parallel_slot_correct: two succeeding tasks completing in
reversed order. -/
theorem parallel_slot_correct_witness :
    ([1, 0] : List Nat).Perm (List.range ([taskokW, taskokW] : List Task).length) ∧
    ParallelSlots execW [taskokW, taskokW]
      (executeParallelGo execW [taskokW, taskokW] (fun _ => false) [1, 0] (fun _ => false)) :=
  ⟨by decide,
   parallel_slot_correct execW [taskokW, taskokW] [1, 0] (fun _ => false) (by decide)⟩

/-- Witness for parallel_error_aggregation: six tasks failing at indices 2
and 5, completing in a scrambled order. -/
theorem parallel_error_aggregation_witness :
    ([5, 0, 2, 4, 1, 3] : List Nat).Perm (List.range tasks6W.length) ∧
    ParallelFailures execW tasks6W
      (executeParallelGo execW tasks6W (fun _ => false) [5, 0, 2, 4, 1, 3] (fun _ => false)) :=
  ⟨by decide,
   parallel_error_aggregation execW tasks6W [5, 0, 2, 4, 1, 3] (fun _ => false) (by decide)⟩

/-- Boolean test that the task at an index executes successfully. -/
def taskOkAt (agentExec : Agent → String → Except OError String) (ts : List Task)
    (j : Nat) : Bool :=
  match ts[j]? with
  | some t => isOkE (executeTask agentExec t)
  | none => false

/-- The sequential loop started at any index stops at the first failing
task, keeping exactly the earlier results, wrapping the failing error with
the absolute failing index, and never looking past the failing task. -/
theorem seqGo_stop (agentExec : Agent → String → Except OError String) :
    ∀ (k : Nat) (ts : List Task) (tk : Task) (e : OError) (s : Nat),
    ts[k]? = some tk →
    (∀ j, j < k → taskOkAt agentExec ts j = true) →
    executeTask agentExec tk = Except.error e →
    (executeSequentialGo agentExec (fun _ => false) s ts).1.length = k ∧
    (∀ j, j < k → ∃ tj r, ts[j]? = some tj ∧
      (executeSequentialGo agentExec (fun _ => false) s ts).1[j]? = some r ∧
      executeTask agentExec tj = Except.ok r) ∧
    (executeSequentialGo agentExec (fun _ => false) s ts).2 =
      some (OError.taskFailed (s + k) e) ∧
    executeSequentialGo agentExec (fun _ => false) s ts =
      executeSequentialGo agentExec (fun _ => false) s (ts.take (k + 1)) := by
  intro k
  induction k with
  | zero =>
    intro ts tk e s hk hok herr
    cases ts with
    | nil => cases hk
    | cons t ts' =>
      have ht : t = tk := by simpa using hk
      subst ht
      refine ⟨?_, ?_, ?_, ?_⟩ <;>
        simp [executeSequentialGo, herr, List.take_succ_cons]
  | succ k' ih =>
    intro ts tk e s hk hok herr
    cases ts with
    | nil => cases hk
    | cons t ts' =>
      have h0 : taskOkAt agentExec (t :: ts') 0 = true := hok 0 (Nat.succ_pos k')
      have hex : ∃ r0, executeTask agentExec t = Except.ok r0 := by
        unfold taskOkAt at h0
        simp only [List.getElem?_cons_zero] at h0
        cases hxt : executeTask agentExec t with
        | error e0 => rw [hxt] at h0; cases h0
        | ok r0 => exact ⟨r0, rfl⟩
      obtain ⟨r0, hr0⟩ := hex
      have hk' : ts'[k']? = some tk := by simpa using hk
      have hok' : ∀ j, j < k' → taskOkAt agentExec ts' j = true := by
        intro j hj
        have hj1 := hok (j + 1) (Nat.succ_lt_succ hj)
        unfold taskOkAt at hj1 ⊢
        simpa using hj1
      obtain ⟨ihlen, ihslots, iherr, ihtake⟩ := ih ts' tk e (s + 1) hk' hok' herr
      have hstep : executeSequentialGo agentExec (fun _ => false) s (t :: ts') =
          ((r0 :: (executeSequentialGo agentExec (fun _ => false) (s + 1) ts').1),
           (executeSequentialGo agentExec (fun _ => false) (s + 1) ts').2) := by
        simp [executeSequentialGo, hr0]
      refine ⟨?_, ?_, ?_, ?_⟩
      · rw [hstep]
        simp [ihlen]
      · intro j hj
        cases j with
        | zero => exact ⟨t, r0, by simp, by rw [hstep]; simp, hr0⟩
        | succ j' =>
          obtain ⟨tj, r, htj, hslot, hxok⟩ := ihslots j' (Nat.lt_of_succ_lt_succ hj)
          exact ⟨tj, r, by simpa using htj, by rw [hstep]; simpa using hslot, hxok⟩
      · rw [hstep]
        rw [iherr]
        have harith : s + 1 + k' = s + (k' + 1) := by omega
        rw [harith]
      · have htake2 : executeSequentialGo agentExec (fun _ => false) s
            ((t :: ts').take (k' + 1 + 1)) =
            ((r0 :: (executeSequentialGo agentExec (fun _ => false) (s + 1)
              (ts'.take (k' + 1))).1),
             (executeSequentialGo agentExec (fun _ => false) (s + 1)
              (ts'.take (k' + 1))).2) := by
          rw [List.take_succ_cons]
          simp [executeSequentialGo, hr0]
        rw [hstep, htake2, ← ihtake]

/-- Conclusion of C5: the sequential run returns exactly the k results
produced before the failing index k (each being the result of the
corresponding earlier task), the error wraps the failing task's error with
0-based index k, and the run equals the run on the first k plus one tasks
alone, so no later task is ever executed. -/
def SequentialStopsAt (agentExec : Agent → String → Except OError String)
    (ts : List Task) (k : Nat) (e : OError) : Prop :=
  (executeSequentialGo agentExec (fun _ => false) 0 ts).1.length = k ∧
  (∀ j, j < k → ∃ tj r, ts[j]? = some tj ∧
    (executeSequentialGo agentExec (fun _ => false) 0 ts).1[j]? = some r ∧
    executeTask agentExec tj = Except.ok r) ∧
  (executeSequentialGo agentExec (fun _ => false) 0 ts).2 =
    some (OError.taskFailed k e) ∧
  executeSequentialGo agentExec (fun _ => false) 0 ts =
    executeSequentialGo agentExec (fun _ => false) 0 (ts.take (k + 1))

/-- C5: for every task list executed sequentially without cancellation, if
tasks before index k succeed and task k fails, the run stops immediately,
returns exactly the k earlier results paired with an error identifying
index k, and never executes a later task. -/
theorem sequential_stops_at_failure (agentExec : Agent → String → Except OError String)
    (ts : List Task) (k : Nat) (tk : Task) (e : OError)
    (hk : ts[k]? = some tk)
    (hok : ∀ j, j < k → taskOkAt agentExec ts j = true)
    (herr : executeTask agentExec tk = Except.error e) :
    SequentialStopsAt agentExec ts k e := by
  obtain ⟨h1, h2, h3, h4⟩ := seqGo_stop agentExec k ts tk e 0 hk hok herr
  refine ⟨h1, h2, ?_, h4⟩
  rw [h3, Nat.zero_add]

/-- Witness for sequential_stops_at_failure: three tasks with the middle
one failing; only the first result is kept and the third never runs. -/
theorem sequential_stops_at_failure_witness :
    ([taskokW, taskbadW, taskokW] : List Task)[1]? = some taskbadW ∧
    (∀ j, j < 1 → taskOkAt execW [taskokW, taskbadW, taskokW] j = true) ∧
    executeTask execW taskbadW =
      Except.error (OError.wrap ("task execution failed") (OError.msg ("boom"))) ∧
    SequentialStopsAt execW [taskokW, taskbadW, taskokW] 1
      (OError.wrap ("task execution failed") (OError.msg ("boom"))) :=
  ⟨rfl, by decide, rfl,
   sequential_stops_at_failure execW [taskokW, taskbadW, taskokW] 1 taskbadW
     (OError.wrap ("task execution failed") (OError.msg ("boom"))) rfl (by decide) rfl⟩

/-- A hierarchical run that fails before doing any work: no results, a
plain configuration error, and an empty manager call log. -/
def ConfigFailure (out : List TaskResult × Option OError × List String) : Prop :=
  ∃ m, out = ([], some (OError.msg m), [])

/-- C6: hierarchical mode fails immediately with a configuration error,
producing no results and issuing no manager call, whenever the manager LLM
is absent, the agent list is empty, or both the task list and the goal are
empty; the outcome is the same for every agent-execution oracle,
unmarshal oracle and cancellation oracle, so no task work is performed. -/
theorem hierarchical_preconditions (o : Orchestrator)
    (agentExec : Agent → String → Except OError String)
    (unmarshal : String → Except String (List PlanStep)) (cancel : Nat → Bool) :
    (o.managerLLM = none → executeHierarchical o agentExec unmarshal cancel =
      ([], some (OError.msg ("hierarchical mode requires a manager LLM")), [])) ∧
    (o.agents = [] → ∀ gen, o.managerLLM = some gen →
      executeHierarchical o agentExec unmarshal cancel =
        ([], some (OError.msg ("no agents available for orchestration")), [])) ∧
    (o.tasks = [] → o.goal = ("") →
      ConfigFailure (executeHierarchical o agentExec unmarshal cancel)) := by
  refine ⟨?_, ?_, ?_⟩
  · intro hm
    unfold executeHierarchical
    rw [hm]
  · intro hag gen hm
    unfold executeHierarchical
    rw [hm]
    simp [hag]
  · intro ht hg
    unfold executeHierarchical
    cases hm : o.managerLLM with
    | none => exact ⟨("hierarchical mode requires a manager LLM"), rfl⟩
    | some gen =>
      by_cases hag : o.agents.length = 0
      · refine ⟨("no agents available for orchestration"), ?_⟩
        simp [hag]
      · refine ⟨("hierarchical mode requires either tasks or a goal"), ?_⟩
        simp [hag, ht, hg]

/-- An orchestrator with no manager LLM configured. -/
def oNoManagerW : Orchestrator :=
  { agents := [agentOkW], tasks := [taskokW], managerLLM := none, goal := ("") }

/-- An orchestrator with a manager but neither tasks nor goal. -/
def oEmptyW : Orchestrator :=
  { agents := [agentOkW], tasks := [], managerLLM := some (fun _ => Except.ok ("X")),
    goal := ("") }

/-- Witness for hierarchical_preconditions at the missing-manager and the
no-tasks-no-goal instances. -/
theorem hierarchical_preconditions_witness :
    oNoManagerW.managerLLM = none ∧
    executeHierarchical oNoManagerW execW (fun _ => Except.error ("x")) (fun _ => false) =
      ([], some (OError.msg ("hierarchical mode requires a manager LLM")), []) ∧
    oEmptyW.tasks = [] ∧ oEmptyW.goal = ("") ∧
    ConfigFailure (executeHierarchical oEmptyW execW (fun _ => Except.error ("x"))
      (fun _ => false)) :=
  ⟨rfl,
   (hierarchical_preconditions oNoManagerW execW (fun _ => Except.error ("x"))
     (fun _ => false)).1 rfl,
   rfl, rfl,
   (hierarchical_preconditions oEmptyW execW (fun _ => Except.error ("x"))
     (fun _ => false)).2.2 rfl rfl⟩

/-- A hierarchical goal run that fails at planning: no results, the
wrapped planning error, and exactly one manager call. -/
def PlanningFailure (agents : List Agent) (goal : String)
    (agentExec : Agent → String → Except OError String)
    (gen : String → Except OError String)
    (unmarshal : String → Except String (List PlanStep)) (cancel : Nat → Bool) : Prop :=
  ∃ e, orchestrateFromGoal agents goal agentExec gen unmarshal cancel =
    ([], some (OError.planCreateFailed e),
     [planPrompt (buildAgentDescriptions agents) goal])

/-- C7: in hierarchical goal mode, when the manager's reply yields a JSON
array that unmarshals to the empty plan or fails to unmarshal, the run
fails with a fatal planning error, returns zero results, and issues the
planning call to the manager exactly once. -/
theorem planning_failure_no_retry (agents : List Agent) (goal : String)
    (agentExec : Agent → String → Except OError String)
    (gen : String → Except OError String)
    (unmarshal : String → Except String (List PlanStep)) (cancel : Nat → Bool)
    (reply : String)
    (hgen : gen (planPrompt (buildAgentDescriptions agents) goal) = Except.ok reply)
    (hne : extractJSON reply ≠ (""))
    (hbad : unmarshal (extractJSON reply) = Except.ok [] ∨
      ∃ m, unmarshal (extractJSON reply) = Except.error m) :
    PlanningFailure agents goal agentExec gen unmarshal cancel := by
  cases hbad with
  | inl hempty =>
    refine ⟨OError.msg ("manager returned empty plan"), ?_⟩
    simp [orchestrateFromGoal, createExecutionPlan, hgen, hne, hempty]
  | inr hfail =>
    obtain ⟨m, hm⟩ := hfail
    refine ⟨OError.wrap ("failed to parse execution plan") (OError.msg m), ?_⟩
    simp [orchestrateFromGoal, createExecutionPlan, hgen, hne, hm]

/-- Unmarshal oracle agreeing with encoding/json on the empty array. -/
def unmarshalW : String → Except String (List PlanStep) :=
  fun s => if s = ("[]") then Except.ok [] else Except.error ("bad json")

/-- Witness for planning_failure_no_retry with a manager replying an empty
JSON array. -/
theorem planning_failure_no_retry_witness :
    ((fun _ : String => (Except.ok ("[]") : Except OError String))
      (planPrompt (buildAgentDescriptions [agentOkW]) ("goal")) = Except.ok ("[]")) ∧
    extractJSON ("[]") ≠ ("") ∧
    unmarshalW (extractJSON ("[]")) = Except.ok [] ∧
    PlanningFailure [agentOkW] ("goal") execW (fun _ => Except.ok ("[]")) unmarshalW
      (fun _ => false) :=
  ⟨rfl, by decide, rfl,
   planning_failure_no_retry [agentOkW] ("goal") execW (fun _ => Except.ok ("[]"))
     unmarshalW (fun _ => false) ("[]") rfl (by decide) (Or.inl rfl)⟩

/-- With every task bound to an agent, the predefined-task loop issues no
manager call and its outcome does not depend on the manager oracle. -/
theorem predefinedLoop_all_bound (agents : List Agent)
    (agentExec : Agent → String → Except OError String)
    (gen : String → Except OError String) (cancel : Nat → Bool) (d : String) :
    ∀ (i : Nat) (ts : List Task), (∀ t' ∈ ts, t'.agent.isSome = true) →
    (predefinedLoop agents agentExec gen cancel d i ts).2.2 = [] ∧
    ∀ gen', predefinedLoop agents agentExec gen cancel d i ts =
      predefinedLoop agents agentExec gen' cancel d i ts := by
  intro i ts
  induction ts generalizing i with
  | nil => intro _; exact ⟨rfl, fun gen' => rfl⟩
  | cons t ts' ih =>
    intro hall
    have ht : t.agent.isSome = true := hall t (List.mem_cons_self t ts')
    obtain ⟨a, ha⟩ := Option.isSome_iff_exists.mp ht
    have hall' : ∀ t' ∈ ts', t'.agent.isSome = true :=
      fun t' h' => hall t' (List.mem_cons_of_mem t h')
    obtain ⟨hlog, hindep⟩ := ih (i + 1) hall'
    constructor
    · by_cases hc : cancel i
      · simp [predefinedLoop, hc]
      · cases hxt : executeTask agentExec t with
        | error e => simp [predefinedLoop, hc, ha, hxt]
        | ok r => simp [predefinedLoop, hc, ha, hxt, hlog]
    · intro gen'
      by_cases hc : cancel i
      · simp [predefinedLoop, hc]
      · cases hxt : executeTask agentExec t with
        | error e => simp [predefinedLoop, hc, ha, hxt]
        | ok r => simp [predefinedLoop, hc, ha, hxt, hindep gen']

/-- Conclusion of C8: a head task with a bound agent is executed directly
through executeTask (so through its bound agent, whose name the result
carries), contributing nothing to the manager call log; and a run whose
tasks all have bound agents issues no manager call at all and does not
depend on the manager oracle. -/
def BoundAgentBehavior (agents : List Agent)
    (agentExec : Agent → String → Except OError String)
    (gen : String → Except OError String) (cancel : Nat → Bool) (d : String)
    (i : Nat) (t : Task) (ts : List Task) (a : Agent) : Prop :=
  (∀ e, executeTask agentExec t = Except.error e →
    predefinedLoop agents agentExec gen cancel d i (t :: ts) =
      ([], some (OError.taskFailed i e), [])) ∧
  (∀ r, executeTask agentExec t = Except.ok r →
    r.task = t ∧ r.agentName = a.name ∧
    predefinedLoop agents agentExec gen cancel d i (t :: ts) =
      ((r :: (predefinedLoop agents agentExec gen cancel d (i + 1) ts).1),
       (predefinedLoop agents agentExec gen cancel d (i + 1) ts).2.1,
       (predefinedLoop agents agentExec gen cancel d (i + 1) ts).2.2)) ∧
  ((∀ t' ∈ t :: ts, t'.agent.isSome = true) →
    (predefinedLoop agents agentExec gen cancel d i (t :: ts)).2.2 = [] ∧
    ∀ gen', predefinedLoop agents agentExec gen cancel d i (t :: ts) =
      predefinedLoop agents agentExec gen' cancel d i (t :: ts))

/-- C8: in hierarchical predefined-task mode, a task that already has a
bound agent is executed directly via that agent and no manager call is
issued for it. -/
theorem predefined_bound_agent (agents : List Agent)
    (agentExec : Agent → String → Except OError String)
    (gen : String → Except OError String) (cancel : Nat → Bool) (d : String)
    (i : Nat) (t : Task) (ts : List Task) (a : Agent)
    (hc : cancel i = false) (ha : t.agent = some a) :
    BoundAgentBehavior agents agentExec gen cancel d i t ts a := by
  refine ⟨?_, ?_,
    fun hall => predefinedLoop_all_bound agents agentExec gen cancel d i (t :: ts) hall⟩
  · intro e he
    simp [predefinedLoop, hc, ha, he]
  · intro r hr
    obtain ⟨h1, h2⟩ := executeTask_ok_fields agentExec t r hr
    exact ⟨h1, h2 a ha, by simp [predefinedLoop, hc, ha, hr]⟩

/-- Witness for predefined_bound_agent: a singleton task list whose task
is bound to the succeeding agent. -/
theorem predefined_bound_agent_witness :
    ((fun _ : Nat => false) 0 = false) ∧ taskokW.agent = some agentOkW ∧
    BoundAgentBehavior [agentOkW] execW (fun _ => Except.ok ("X")) (fun _ => false)
      (buildAgentDescriptions [agentOkW]) 0 taskokW [] agentOkW :=
  ⟨rfl, rfl,
   predefined_bound_agent [agentOkW] execW (fun _ => Except.ok ("X")) (fun _ => false)
     (buildAgentDescriptions [agentOkW]) 0 taskokW [] agentOkW rfl rfl⟩

/-- C9: the result formatter deterministically renders, per result in
input order, the 1-based task index, the task description, the executing
agent name and the full result text, each entry closed by the fixed
delimiter line; for two results both entries appear in input order after
the header. -/
theorem formatResults_rendering :
    (∀ (i : Nat) (r : TaskResult) (rs : List TaskResult),
      formatResultsFrom i (r :: rs) =
        ("Task ") ++ toString (i + 1) ++ (": ") ++ r.task.description ++ ("\n") ++
        ("Agent: ") ++ r.agentName ++ ("\n") ++ ("Result:\n") ++ r.result ++ ("\n") ++
        ("------------------------\n\n") ++ formatResultsFrom (i + 1) rs) ∧
    (∀ r1 r2 : TaskResult,
      FormatResults [r1, r2] =
        ("\n=== EXECUTION RESULTS ===\n\n") ++
          ((("Task ") ++ toString (1 : Nat) ++ (": ") ++ r1.task.description ++ ("\n") ++
            ("Agent: ") ++ r1.agentName ++ ("\n") ++ ("Result:\n") ++ r1.result ++ ("\n") ++
            ("------------------------\n\n")) ++
           ((("Task ") ++ toString (2 : Nat) ++ (": ") ++ r2.task.description ++ ("\n") ++
             ("Agent: ") ++ r2.agentName ++ ("\n") ++ ("Result:\n") ++ r2.result ++ ("\n") ++
             ("------------------------\n\n")) ++ ("")))) := by
  constructor
  · intro i r rs
    rfl
  · intro r1 r2
    rfl

/-- C10: with a manager, at least one agent and a nonempty predefined task
list, hierarchical mode always runs predefined-task assignment, and the
goal string has no effect on the outcome. -/
theorem hierarchical_prefers_tasks (o : Orchestrator) (gen : String → Except OError String)
    (agentExec : Agent → String → Except OError String)
    (unmarshal : String → Except String (List PlanStep)) (cancel : Nat → Bool)
    (hm : o.managerLLM = some gen) (hag : o.agents ≠ []) (ht : o.tasks ≠ []) :
    executeHierarchical o agentExec unmarshal cancel =
      orchestratePredefinedTasks o.agents o.tasks agentExec gen cancel ∧
    ∀ g, executeHierarchical { o with goal := g } agentExec unmarshal cancel =
      executeHierarchical o agentExec unmarshal cancel := by
  have hag' : ¬(o.agents.length = 0) := by
    simpa [List.length_eq_zero] using hag
  have ht' : 0 < o.tasks.length := List.length_pos.mpr ht
  have hbase : executeHierarchical o agentExec unmarshal cancel =
      orchestratePredefinedTasks o.agents o.tasks agentExec gen cancel := by
    unfold executeHierarchical
    rw [hm]
    simp [hag', ht']
  refine ⟨hbase, ?_⟩
  intro g
  have h2 : executeHierarchical { o with goal := g } agentExec unmarshal cancel =
      orchestratePredefinedTasks o.agents o.tasks agentExec gen cancel := by
    unfold executeHierarchical
    rw [(hm : ({ o with goal := g } : Orchestrator).managerLLM = some gen)]
    simp [hag', ht']
  rw [h2, hbase]

/-- An orchestrator carrying both predefined tasks and a goal. -/
def oTasksW : Orchestrator :=
  { agents := [agentOkW], tasks := [taskokW],
    managerLLM := some (fun _ => Except.ok ("X")), goal := ("G") }

/-- Witness for hierarchical_prefers_tasks. -/
theorem hierarchical_prefers_tasks_witness :
    oTasksW.managerLLM = some (fun _ => Except.ok ("X")) ∧
    oTasksW.agents ≠ [] ∧ oTasksW.tasks ≠ [] ∧
    (executeHierarchical oTasksW execW unmarshalW (fun _ => false) =
       orchestratePredefinedTasks oTasksW.agents oTasksW.tasks execW
         (fun _ => Except.ok ("X")) (fun _ => false) ∧
     ∀ g, executeHierarchical { oTasksW with goal := g } execW unmarshalW (fun _ => false) =
       executeHierarchical oTasksW execW unmarshalW (fun _ => false)) :=
  ⟨rfl, by decide, by decide,
   hierarchical_prefers_tasks oTasksW (fun _ => Except.ok ("X")) execW unmarshalW
     (fun _ => false) rfl (by decide) (by decide)⟩

end GittyAI
